import Mathlib

/-!
Shallow embedding of the UTXO chaincode (`src/go/chaincode.go`) and proofs
about its operations.

Modelling conventions:
* The ledger store (Fabric's `ChaincodeStubInterface` state) is a list of
  `(key, record)` pairs; `GetStateByRange("", "")` iterates it in list
  order, and `PutState` inserts keeping keys sorted so that list order is
  ascending key order.
* Record bytes are abstracted by the inductive `Record`, faithful to Go's
  `encoding/json` on these structs: `json.Marshal` keeps exported fields
  only, so a persisted UTXO carries its four exported fields (the
  unexported `inOrOut` is dropped) and a persisted `Transaction` is the
  empty object (all of its fields are unexported; json tags on unexported
  fields have no effect).  `Record.malformed` stands for bytes that fail
  to decode; `json.Unmarshal` with its error ignored is `decodeUTXOOr`,
  which can never set `inOrOut`.
* Go `float64` arithmetic on amounts is modelled by exact rationals `ℚ`;
  `strconv.ParseFloat` (restricted to plain decimal literals) is
  `parseDecQ`, with a failed parse defaulting to `0` where the Go code
  discards the error; `strconv.FormatFloat(x, 'f', 2, 64)` is
  `formatFloat2` (round half to even at two decimal places).
* Store mutations that can fail are driven by an oracle `mf : Op → Bool`
  saying which `DelState`/`PutState` calls fail (a failed call leaves the
  store unchanged).  `transferUTXO` discards those errors exactly where the
  Go code does; `initState` checks them exactly where the Go code does.
-/

namespace Chaincode

/-- UTXO record, mirroring the Go struct `UTXO` (fields Txid, Index,
Amount, Address, inOrOut; amounts are stored as strings). -/
structure UTXO where
  txid : String
  index : String
  amount : String
  address : String
  inOrOut : String
deriving Repr, DecidableEq, Inhabited

/-- Transaction record, mirroring the Go struct `Transaction`. -/
structure Transaction where
  id : String
  inputs : List UTXO
  outputs : List UTXO
deriving Repr, DecidableEq, Inhabited

/-- The JSON bytes a store entry can hold, structurally.  `json.Marshal`
keeps only exported fields: a marshalled UTXO carries `Txid`, `Index`,
`Amount` and `Address` (the unexported `inOrOut` is dropped), and a
marshalled `Transaction` — all of whose fields are unexported — is the
empty object (`emptyObj`).  `malformed` stands for any bytes that do not
decode. -/
inductive Record where
  | utxo (txid index amount address : String)
  | emptyObj
  | malformed
deriving Repr, DecidableEq, Inhabited

/-- Go's zero value `var utxo UTXO`: all string fields empty. -/
def zeroUTXO : UTXO := ⟨"", "", "", "", ""⟩

/-- Result of `json.Unmarshal(value, &utxo)` with the error ignored: the
four exported fields are filled from a marshalled UTXO; the unexported
`inOrOut` is never set and keeps its zero value `""`; any other bytes
leave the whole zero value. -/
def decodeUTXOOr : Record → UTXO
  | .utxo t i a ad => ⟨t, i, a, ad, ""⟩
  | _ => zeroUTXO

/-- `json.Marshal` of a UTXO: only the exported fields are persisted. -/
def marshalUTXO (u : UTXO) : Record := .utxo u.txid u.index u.amount u.address

/-- `json.Marshal` of a Transaction: every field is unexported, so the
persisted bytes are the empty object regardless of the value. -/
def marshalTransaction (_t : Transaction) : Record := .emptyObj

/-! ### Decimal parsing and formatting (`strconv.ParseFloat` / `FormatFloat`) -/

/-- Numeric value of a decimal digit character. -/
def digToNat (c : Char) : Nat := c.toNat - 48

/-- Value of a digit string, most significant first. -/
def digitsVal (l : List Char) : Nat := l.foldl (fun a c => 10 * a + digToNat c) 0

/-- Parse an unsigned decimal literal `digits[.digits]` (at least one digit
overall) as an exact rational. -/
def parseUnsignedQ (l : List Char) : Option ℚ :=
  let i := l.takeWhile Char.isDigit
  let r := l.dropWhile Char.isDigit
  match r with
  | [] => if i = [] then none else some (digitsVal i : ℚ)
  | c :: f =>
    if c = '.' then
      if f.all Char.isDigit && !(i = [] && f = []) then
        some ((digitsVal i : ℚ) + (digitsVal f : ℚ) / (10 : ℚ) ^ f.length)
      else none
    else none

/-- Model of `strconv.ParseFloat` restricted to plain decimal literals
(the only numeric strings this ledger ever stores or is given in the
claims).  `none` models a parse error. -/
def parseDecQ (s : String) : Option ℚ :=
  if s.data.head? = some '-' then (parseUnsignedQ s.data.tail).map (fun q => -q)
  else parseUnsignedQ s.data

/-- Parse with the error discarded, as the Go code does
(`amount, _ := strconv.ParseFloat(...)`): a failed parse yields `0`. -/
def parseDecQ0 (s : String) : ℚ := (parseDecQ s).getD 0

/-- Decimal printing worker: prepend the digits of `n` to `acc`, spending
one unit of fuel per digit. -/
def natToDecCharsAux : Nat → Nat → List Char → List Char
  | 0, _, acc => acc
  | fuel + 1, n, acc =>
    let acc' := Nat.digitChar (n % 10) :: acc
    if n < 10 then acc' else natToDecCharsAux fuel (n / 10) acc'

/-- Decimal digits of `n`, most significant first (at least one digit);
models `strconv.Itoa` and the digit part of `strconv.FormatFloat`. -/
def natToDecChars (n : Nat) : List Char := natToDecCharsAux (n + 1) n []

/-- Floor of a rational, computably. -/
def qfloor (q : ℚ) : ℤ := q.num.fdiv q.den

/-- Round a rational to the nearest integer, ties to even. -/
def roundHalfEven (q : ℚ) : ℤ :=
  let f := qfloor q
  if q - (f : ℚ) < 1 / 2 then f
  else if (1 / 2 : ℚ) < q - (f : ℚ) then f + 1
  else if f % 2 = 0 then f else f + 1

/-- Two decimal digits of `k % 100`, zero padded. -/
def pad2 (k : Nat) : List Char := [Nat.digitChar (k / 10 % 10), Nat.digitChar (k % 10)]

/-- Model of `strconv.FormatFloat(x, 'f', 2, 64)`: fixed two decimal
places, rounding to nearest (ties to even). -/
def formatFloat2 (q : ℚ) : String :=
  let n := roundHalfEven (100 * q)
  let m := n.natAbs
  let chars := natToDecChars (m / 100) ++ '.' :: pad2 (m % 100)
  ⟨if n < 0 then '-' :: chars else chars⟩

/-! ### The ledger store -/

/-- One store mutation, as issued to the stub. -/
inductive Op where
  | del (k : String)
  | put (k : String) (v : Record)
deriving Repr, DecidableEq

/-- The ledger state: `(key, record)` pairs kept in ascending key order;
`GetStateByRange("", "")` iterates it in this (list) order. -/
abbrev Store := List (String × Record)

/-- Lexicographic byte order on keys (Fabric orders keys bytewise; our keys
are ASCII so characterwise order coincides). -/
def charsLt : List Char → List Char → Bool
  | [], [] => false
  | [], _ :: _ => true
  | _ :: _, [] => false
  | a :: as, b :: bs => if a < b then true else if b < a then false else charsLt as bs

/-- Key order used by the store. -/
def keyLt (a b : String) : Bool := charsLt a.data b.data

/-- `PutState`: insert (or overwrite) keeping ascending key order. -/
def putState : Store → String → Record → Store
  | [], k, v => [(k, v)]
  | (k', v') :: rest, k, v =>
    if keyLt k k' then (k, v) :: (k', v') :: rest
    else if k = k' then (k, v) :: rest
    else (k', v') :: putState rest k v

/-- `DelState`: remove the key. -/
def delState (st : Store) (k : String) : Store := st.filter (fun e => e.1 ≠ k)

/-- `GetState`: point lookup. -/
def getState (st : Store) (k : String) : Option Record :=
  (st.find? (fun e => e.1 = k)).map Prod.snd

/-- Apply one mutation, unless the failure oracle `mf` says it fails (a
failed mutation leaves the store unchanged; its error is what the caller
may check or discard). -/
def applyOp (mf : Op → Bool) (st : Store) (op : Op) : Store :=
  if mf op then st
  else
    match op with
    | .del k => delState st k
    | .put k v => putState st k v

/-- Key classifier from the Go code: `strings.Contains(key, ":")` marks a
UTXO record key. -/
def keyIsUTXO (k : String) : Bool := k.data.contains ':'

/-- Store key of a UTXO, from `storeUTXO`: `txid + ":" + utxo.Index`. -/
def utxoKey (txid index : String) : String := txid ++ ":" ++ index

/-! ### The chaincode operations -/

/-- `makeUTXO` from the Go code. -/
def makeUTXO (txid index amount address inOrOut : String) : UTXO :=
  ⟨txid, index, amount, address, inOrOut⟩

/-- `makeTransaction` from the Go code. -/
def makeTransaction (id : String) (inputs outputs : List UTXO) : Transaction :=
  ⟨id, inputs, outputs⟩

/-- `checkUTXOOwnerShip` from the Go code: address equality and direction
`"out"`. -/
def checkUTXOOwnerShip (utxo : UTXO) (address : String) : Bool :=
  utxo.address == address && utxo.inOrOut == "out"

/-- The selection loop of `transferUTXO`: iterate the scan while
`currValue < amount`, decode each value (error ignored), skip entries not
owned by `addrFrom`, mark selected ones `"in"`, collect their keys and
accumulate their parsed amounts.  Returns (inputs, keysToRemove,
currValue). -/
def selectLoop (addrFrom : String) (amount : ℚ) :
    List (String × Record) → ℚ → List UTXO × List String × ℚ
  | [], currValue => ([], [], currValue)
  | (k, v) :: rest, currValue =>
    if currValue < amount then
      let utxo := decodeUTXOOr v
      if checkUTXOOwnerShip utxo addrFrom then
        let marked := { utxo with inOrOut := "in" }
        let res := selectLoop addrFrom amount rest (currValue + parseDecQ0 utxo.amount)
        (marked :: res.1, k :: res.2.1, res.2.2)
      else selectLoop addrFrom amount rest currValue
    else ([], [], currValue)

/-- Result of an invocation that mutates: the response
(`shim.Success`/`shim.Error`), the resulting store, the mutation calls
issued (in order), and — as observers of the code's locals — the
constructed transaction and the selection total `currValue`. -/
structure TransferResult where
  response : Except String Unit
  store : Store
  ops : List Op
  txRec : Option Transaction
  total : ℚ
deriving Repr

/-- `transferUTXO` from the Go code.  `mf` is the mutation-failure oracle:
the Go code discards the error results of every `DelState`/`PutState` it
performs after selection succeeds, so the response never depends on it. -/
def transferUTXO (mf : Op → Bool) (st : Store) (txid : String)
    (args : List String) : TransferResult :=
  match args with
  | [addrFrom, addrTo, amountStr] =>
    let amount := parseDecQ0 amountStr
    let sel := selectLoop addrFrom amount st 0
    let inputs := sel.1
    let utfoKeysToRemove := sel.2.1
    let currValue := sel.2.2
    if currValue < amount then
      { response := .error "No enough amount to spend", store := st, ops := [],
        txRec := none, total := currValue }
    else
      let utxo1 := makeUTXO txid "1" amountStr addrTo "out"
      let utxo2 := if amount < currValue then
          makeUTXO txid "2" (formatFloat2 (currValue - amount)) addrFrom "out"
        else zeroUTXO
      let outputs := if amount < currValue then [utxo1, utxo2] else [utxo1]
      let transaction := makeTransaction txid inputs outputs
      let ops := utfoKeysToRemove.map Op.del ++
        [Op.put (utxoKey txid utxo1.index) (marshalUTXO utxo1),
         Op.put (utxoKey txid utxo2.index) (marshalUTXO utxo2),
         Op.put txid (marshalTransaction transaction)]
      { response := .ok (), store := ops.foldl (applyOp mf) st, ops := ops,
        txRec := some transaction, total := currValue }
  | _ =>
    { response := .error "Incorrect number of arguments. Expecting 3", store := st,
      ops := [], txRec := none, total := 0 }

/-- The string `strconv.Itoa(math.MaxUint32)` used as the coinbase input
index. -/
def maxUint32Str : String := ⟨natToDecChars (2 ^ 32 - 1)⟩

/-- `initState` from the Go code: seed one coinbase transaction paying the
genesis amount `"50"` to `"User A"`.  Unlike `transferUTXO`, it checks the
errors of its two `PutState` calls. -/
def initState (mf : Op → Bool) (st : Store) (txid : String) : Except String Store :=
  let input0 := makeUTXO txid maxUint32Str "50" "Coinbase" "in"
  let output0 := makeUTXO txid "1" "50" "User A" "out"
  let transaction := makeTransaction txid [input0] [output0]
  let op1 := Op.put (utxoKey txid output0.index) (marshalUTXO output0)
  if mf op1 then .error "put state failed"
  else
    let st1 := putState st (utxoKey txid output0.index) (marshalUTXO output0)
    let op2 := Op.put txid (marshalTransaction transaction)
    if mf op2 then .error "put state failed"
    else .ok (putState st1 txid (marshalTransaction transaction))

/-- `queryUTXOByAddr` from the Go code: scan everything, keep the entries
whose key contains `":"`, decode them (error ignored) and keep those
passing `checkUTXOOwnerShip`. -/
def queryUTXOByAddr (st : Store) (args : List String) :
    Except String (List (String × UTXO)) :=
  match args with
  | [address] =>
    .ok (st.filterMap (fun e =>
      if keyIsUTXO e.1 then
        let utxo := decodeUTXOOr e.2
        if checkUTXOOwnerShip utxo address then some (e.1, utxo) else none
      else none))
  | _ => .error "Incorrect number of arguments. Expecting 1"

/-! ### Derived notions used to state the claims -/

/-- The oracle for a store whose mutations all succeed. -/
def noFail : Op → Bool := fun _ => false

/-- Spendable amount one scanned entry contributes for `addr`: its parsed
amount if the decoded record passes the ownership check, else `0`. -/
def entryAmt (addr : String) (e : String × Record) : ℚ :=
  if checkUTXOOwnerShip (decodeUTXOOr e.2) addr then parseDecQ0 (decodeUTXOOr e.2).amount
  else 0

/-- Total spendable amount the full scan attributes to `addr`. -/
def spendableSum (st : Store) (addr : String) : ℚ := (st.map (entryAmt addr)).sum

/-- The UTXO-classified entries of a store. -/
def utxoEntries (st : Store) : Store := st.filter (fun e => keyIsUTXO e.1)

/-- The transaction-classified entries of a store. -/
def txEntries (st : Store) : Store := st.filter (fun e => !keyIsUTXO e.1)

/-- The `PutState` calls of an op list that write a UTXO record. -/
def utxoPutOps (ops : List Op) : List Op :=
  ops.filter (fun op => match op with
    | .put _ (.utxo _ _ _ _) => true
    | _ => false)

/-- Ascending key order of a store, executable. -/
def keysSorted : Store → Bool
  | [] => true
  | [_] => true
  | a :: b :: rest => keyLt a.1 b.1 && keysSorted (b :: rest)

/-- A store with its undecodable records removed. -/
def dropMalformed (st : Store) : Store := st.filter (fun e => e.2 ≠ Record.malformed)

/-- The ownership test the scans apply to a raw entry. -/
def entryOwned (addr : String) (e : String × Record) : Bool :=
  checkUTXOOwnerShip (decodeUTXOOr e.2) addr

lemma spendableSum_cons (addr : String) (e : String × Record) (l : Store) :
    spendableSum (e :: l) addr = entryAmt addr e + spendableSum l addr := by
  simp [spendableSum]

lemma spendableSum_append (addr : String) (a b : Store) :
    spendableSum (a ++ b) addr = spendableSum a addr + spendableSum b addr := by
  simp [spendableSum]

lemma entryAmt_of_not_owned {addr : String} {e : String × Record}
    (h : entryOwned addr e = false) :
    entryAmt addr e = 0 := by
  simp only [entryOwned] at h
  simp [entryAmt, h]

lemma data_utxoKey (txid idx : String) :
    (utxoKey txid idx).data = txid.data ++ ':' :: idx.data := by
  simp [utxoKey, String.data_append]

lemma keyIsUTXO_utxoKey (txid idx : String) : keyIsUTXO (utxoKey txid idx) = true := by
  simp [keyIsUTXO, data_utxoKey]

lemma ne_utxoKey (txid idx : String) : txid ≠ utxoKey txid idx := by
  intro h
  have hd := congrArg String.data h
  rw [data_utxoKey] at hd
  have := congrArg List.length hd
  simp at this

lemma transferUTXO_insufficient (mf : Op → Bool) (st : Store) (txid a b s : String)
    (h : (selectLoop a (parseDecQ0 s) st 0).2.2 < parseDecQ0 s) :
    transferUTXO mf st txid [a, b, s] =
      { response := .error "No enough amount to spend", store := st, ops := [],
        txRec := none, total := (selectLoop a (parseDecQ0 s) st 0).2.2 } := by
  simp only [transferUTXO]
  rw [if_pos h]

lemma transferUTXO_ok (mf : Op → Bool) (st : Store) (txid a b s : String)
    (h : ¬ (selectLoop a (parseDecQ0 s) st 0).2.2 < parseDecQ0 s) :
    transferUTXO mf st txid [a, b, s] =
      (let amt := parseDecQ0 s
       let sel := selectLoop a amt st 0
       let utxo1 := makeUTXO txid "1" s b "out"
       let utxo2 := if amt < sel.2.2 then
           makeUTXO txid "2" (formatFloat2 (sel.2.2 - amt)) a "out"
         else zeroUTXO
       let outputs := if amt < sel.2.2 then [utxo1, utxo2] else [utxo1]
       let transaction := makeTransaction txid sel.1 outputs
       let ops := sel.2.1.map Op.del ++
         [Op.put (utxoKey txid utxo1.index) (marshalUTXO utxo1),
          Op.put (utxoKey txid utxo2.index) (marshalUTXO utxo2),
          Op.put txid (marshalTransaction transaction)]
       { response := .ok (), store := ops.foldl (applyOp mf) st, ops := ops,
         txRec := some transaction, total := sel.2.2 }) := by
  simp only [transferUTXO]
  rw [if_neg h]

lemma transferUTXO_response_ok_iff (mf : Op → Bool) (st : Store) (txid a b s : String) :
    (transferUTXO mf st txid [a, b, s]).response = .ok () ↔
      parseDecQ0 s ≤ (selectLoop a (parseDecQ0 s) st 0).2.2 := by
  by_cases h : (selectLoop a (parseDecQ0 s) st 0).2.2 < parseDecQ0 s
  · rw [transferUTXO_insufficient mf st txid a b s h]
    simp
    linarith
  · rw [transferUTXO_ok mf st txid a b s h]
    simp
    linarith [not_lt.mp h]



lemma charsLt_trans : ∀ a b c : List Char,
    charsLt a b = true → charsLt b c = true → charsLt a c = true := by
  intro a
  induction a with
  | nil =>
    intro b c hab hbc
    cases b with
    | nil => simp [charsLt] at hab
    | cons x xs =>
      cases c with
      | nil => simp [charsLt] at hbc
      | cons y ys => simp [charsLt]
  | cons x xs ih =>
    intro b c hab hbc
    cases b with
    | nil => simp [charsLt] at hab
    | cons y ys =>
      cases c with
      | nil => simp [charsLt] at hbc
      | cons z zs =>
        simp only [charsLt] at hab hbc ⊢
        by_cases hxy : x < y
        · by_cases hyz : y < z
          · rw [if_pos (lt_trans hxy hyz)]
          · rw [if_neg hyz] at hbc
            by_cases hzy : z < y
            · simp [hzy] at hbc
            · have : y = z := le_antisymm (not_lt.mp hzy) (not_lt.mp hyz)
              subst this
              rw [if_pos hxy]
        · rw [if_neg hxy] at hab
          by_cases hyx : y < x
          · simp [hyx] at hab
          · have hxyeq : x = y := le_antisymm (not_lt.mp hyx) (not_lt.mp hxy)
            subst hxyeq
            simp only [if_neg hxy] at hab ⊢
            by_cases hxz : x < z
            · rw [if_pos hxz]
            · rw [if_neg hxz] at hbc ⊢
              by_cases hzx : z < x
              · simp [hzx] at hbc
              · rw [if_neg hzx] at hbc ⊢
                exact ih ys zs (by simpa [if_neg hyx] using hab) hbc

lemma charsLt_total : ∀ a b : List Char,
    a = b ∨ charsLt a b = true ∨ charsLt b a = true := by
  intro a
  induction a with
  | nil =>
    intro b
    cases b with
    | nil => left; rfl
    | cons y ys => right; left; rfl
  | cons x xs ih =>
    intro b
    cases b with
    | nil => right; right; rfl
    | cons y ys =>
      by_cases hxy : x < y
      · right; left; simp [charsLt, hxy]
      · by_cases hyx : y < x
        · right; right; simp [charsLt, hyx]
        · have hxyeq : x = y := le_antisymm (not_lt.mp hyx) (not_lt.mp hxy)
          subst hxyeq
          rcases ih ys with heq | hlt | hgt
          · left; rw [heq]
          · right; left; simp [charsLt, hxy, hlt]
          · right; right; simp [charsLt, hxy, hgt]

lemma keyLt_trans {a b c : String} (hab : keyLt a b = true) (hbc : keyLt b c = true) :
    keyLt a c = true := charsLt_trans a.data b.data c.data hab hbc

lemma keyLt_total_of_ne {a b : String} (hne : a ≠ b) :
    keyLt a b = true ∨ keyLt b a = true := by
  rcases charsLt_total a.data b.data with heq | h | h
  · refine absurd ?_ hne
    cases a with
    | mk da =>
      cases b with
      | mk db => exact congrArg String.mk (by simpa using heq)
  · exact Or.inl h
  · exact Or.inr h

/-- The executable sortedness check coincides with pairwise key order. -/
lemma keysSorted_iff_pairwise : ∀ st : Store,
    keysSorted st = true ↔ List.Pairwise (fun x y => keyLt x.1 y.1 = true) st := by
  intro st
  induction st with
  | nil => simp [keysSorted]
  | cons a rest ih =>
    cases rest with
    | nil => simp [keysSorted]
    | cons b rest' =>
      simp only [keysSorted, Bool.and_eq_true, ih, List.pairwise_cons]
      constructor
      · rintro ⟨hab, hrest⟩
        refine ⟨?_, hrest⟩
        intro y hy
        rcases List.mem_cons.mp hy with rfl | hy'
        · exact hab
        · exact keyLt_trans hab (hrest.1 y hy')
      · rintro ⟨hall, hrest⟩
        exact ⟨hall b (List.mem_cons_self b rest'), hrest⟩

lemma mem_putState : ∀ (st : Store) (k : String) (v : Record) (e : String × Record),
    e ∈ putState st k v → e = (k, v) ∨ e ∈ st := by
  intro st k v
  induction st with
  | nil => intro e he; simpa [putState] using he
  | cons a rest ih =>
    intro e he
    simp only [putState] at he
    by_cases h1 : keyLt k a.1 = true
    · rw [if_pos h1] at he
      rcases List.mem_cons.mp he with rfl | h
      · exact Or.inl rfl
      · exact Or.inr h
    · rw [if_neg h1] at he
      by_cases h2 : k = a.1
      · rw [if_pos h2] at he
        rcases List.mem_cons.mp he with rfl | h
        · exact Or.inl rfl
        · exact Or.inr (List.mem_cons_of_mem a h)
      · rw [if_neg h2] at he
        rcases List.mem_cons.mp he with rfl | h
        · exact Or.inr (List.mem_cons_self _ _)
        · rcases ih e h with h' | h'
          · exact Or.inl h'
          · exact Or.inr (List.mem_cons_of_mem a h')

/-- `PutState` keeps the store in ascending key order: the scan sequence of
every reachable store really is ascending, as the modelling convention
states. -/
lemma putState_sorted (st : Store) (k : String) (v : Record)
    (hs : keysSorted st = true) : keysSorted (putState st k v) = true := by
  rw [keysSorted_iff_pairwise] at hs ⊢
  induction st with
  | nil => simp [putState]
  | cons a rest ih =>
    rw [List.pairwise_cons] at hs
    simp only [putState]
    by_cases h1 : keyLt k a.1 = true
    · rw [if_pos h1]
      rw [List.pairwise_cons]
      refine ⟨?_, by rw [List.pairwise_cons]; exact hs⟩
      intro y hy
      rcases List.mem_cons.mp hy with rfl | hy'
      · exact h1
      · exact keyLt_trans h1 (hs.1 y hy')
    · rw [if_neg h1]
      by_cases h2 : k = a.1
      · rw [if_pos h2]
        rw [List.pairwise_cons]
        exact ⟨fun y hy => h2 ▸ hs.1 y hy, hs.2⟩
      · rw [if_neg h2]
        rw [List.pairwise_cons]
        refine ⟨?_, ih hs.2⟩
        intro y hy
        rcases mem_putState rest k v y hy with rfl | hy'
        · rcases keyLt_total_of_ne (fun h => h2 h.symm) with h | h
          · exact h
          · exact absurd h h1
        · exact hs.1 y hy'

lemma delState_sorted (st : Store) (k : String)
    (hs : keysSorted st = true) : keysSorted (delState st k) = true := by
  rw [keysSorted_iff_pairwise] at hs ⊢
  exact List.Pairwise.sublist (List.filter_sublist st) hs

/-- Every store mutation preserves ascending key order, so every store a
chaincode invocation can produce scans in ascending key order. -/
lemma applyOp_sorted (mf : Op → Bool) (st : Store) (op : Op)
    (hs : keysSorted st = true) : keysSorted (applyOp mf st op) = true := by
  unfold applyOp
  by_cases h : mf op = true
  · rwa [if_pos h]
  · rw [if_neg h]
    cases op with
    | del k => exact delState_sorted st k hs
    | put k v => exact putState_sorted st k v hs



/-! ### The scan can never see a spendable entry -/

lemma checkUTXOOwnerShip_zero (addr : String) : checkUTXOOwnerShip zeroUTXO addr = false := by
  simp [checkUTXOOwnerShip, zeroUTXO]

/-- The central consequence of the unexported `inOrOut` field: no persisted
bytes can decode to a UTXO whose direction is `"out"`, so the ownership
check fails on every scanned entry, whatever it holds. -/
lemma checkUTXOOwnerShip_decode (r : Record) (addr : String) :
    checkUTXOOwnerShip (decodeUTXOOr r) addr = false := by
  cases r with
  | utxo t i a ad => simp [decodeUTXOOr, checkUTXOOwnerShip]
  | emptyObj => simp [decodeUTXOOr, checkUTXOOwnerShip, zeroUTXO]
  | malformed => simp [decodeUTXOOr, checkUTXOOwnerShip, zeroUTXO]

/-- The selection loop never selects anything: every scanned entry fails
the ownership check, so the loop walks the scan and returns an empty
selection with its accumulator unchanged. -/
lemma selectLoop_nothing (addr : String) (amt : ℚ) :
    ∀ (l : Store) (acc : ℚ), selectLoop addr amt l acc = ([], [], acc) := by
  intro l
  induction l with
  | nil => intro acc; rfl
  | cons e rest ih =>
    obtain ⟨ek, ev⟩ := e
    intro acc
    by_cases hacc : acc < amt
    · have hno : ¬ (checkUTXOOwnerShip (decodeUTXOOr ev) addr = true) := by
        simp [checkUTXOOwnerShip_decode]
      simp only [selectLoop, if_pos hacc]
      rw [if_neg hno]
      exact ih acc
    · simp only [selectLoop, if_neg hacc]

/-- No store attributes any spendable amount to any address. -/
lemma spendableSum_zero (st : Store) (addr : String) : spendableSum st addr = 0 := by
  induction st with
  | nil => rfl
  | cons e rest ih =>
    rw [spendableSum_cons, ih,
      entryAmt_of_not_owned (checkUTXOOwnerShip_decode e.2 addr), zero_add]

/-! ### Concrete evaluation lemmas -/

lemma parseDecQ0_0 : parseDecQ0 "0" = 0 := by
  simp [parseDecQ0, parseDecQ, parseUnsignedQ, digitsVal, digToNat]

lemma parseDecQ0_1 : parseDecQ0 "1" = 1 := by
  simp [parseDecQ0, parseDecQ, parseUnsignedQ, digitsVal, digToNat]

lemma parseDecQ0_20 : parseDecQ0 "20" = 20 := by
  simp [parseDecQ0, parseDecQ, parseUnsignedQ, digitsVal, digToNat]

lemma parseDecQ0_60 : parseDecQ0 "60" = 60 := by
  simp [parseDecQ0, parseDecQ, parseUnsignedQ, digitsVal, digToNat]

lemma parseDecQ0_neg5 : parseDecQ0 "-5" = -5 := by
  simp [parseDecQ0, parseDecQ, parseUnsignedQ, digitsVal, digToNat]

lemma formatFloat2_5 : formatFloat2 5 = "5.00" := by
  unfold formatFloat2 roundHalfEven qfloor
  norm_num [Rat.num_ofNat, Rat.den_ofNat, Int.fdiv]
  decide

/-- C1 (status: code_bug).  The spec requires `transferUTXO` to reject a
non-positive or malformed amount with an error and no store mutation; the
code ignores the `ParseFloat` error and performs no amount validation at
all.  At the failing input (amount `"-5"`, empty ledger) the operation
returns success, stores a negative-amount UTXO for the recipient and
mints a `"5.00"` change UTXO for the sender out of nothing; at the
malformed amount `"abc"` (which parses to `0`) it likewise returns
success and stores a UTXO whose amount field is the text `"abc"`.  The
ops listed are the marshalled bytes actually put (exported fields only;
the transaction record marshals to the empty object). -/
theorem transferUTXO_no_amount_validation :
    ((transferUTXO noFail [] "t1" ["User A", "User B", "-5"]).response = .ok () ∧
     (transferUTXO noFail [] "t1" ["User A", "User B", "-5"]).ops =
       [Op.put "t1:1" (.utxo "t1" "1" "-5" "User B"),
        Op.put "t1:2" (.utxo "t1" "2" "5.00" "User A"),
        Op.put "t1" Record.emptyObj] ∧
     (transferUTXO noFail [] "t1" ["User A", "User B", "-5"]).txRec =
       some ⟨"t1", [], [⟨"t1", "1", "-5", "User B", "out"⟩,
                        ⟨"t1", "2", "5.00", "User A", "out"⟩]⟩ ∧
     (transferUTXO noFail [] "t1" ["User A", "User B", "-5"]).store ≠ []) ∧
    (parseDecQ "abc" = none ∧
     (transferUTXO noFail [] "t6" ["User A", "User B", "abc"]).response = .ok () ∧
     (transferUTXO noFail [] "t6" ["User A", "User B", "abc"]).ops =
       [Op.put "t6:1" (.utxo "t6" "1" "abc" "User B"),
        Op.put "t6:" (.utxo "" "" "" ""),
        Op.put "t6" Record.emptyObj]) := by
  have habc : parseDecQ "abc" = none := by
    simp [parseDecQ, parseUnsignedQ]
  have habc0 : parseDecQ0 "abc" = 0 := by
    rw [parseDecQ0, habc]
    rfl
  refine ⟨⟨?_, ?_, ?_, ?_⟩, habc, ?_, ?_⟩ <;>
    norm_num [transferUTXO, selectLoop, parseDecQ0_neg5, habc0, makeUTXO, makeTransaction,
      utxoKey, zeroUTXO, formatFloat2_5, noFail, applyOp, putState, keyLt, charsLt,
      marshalUTXO, marshalTransaction] <;>
    decide

/-- C2 (status: confirmed).  Whenever the full scan attributes to the
sender a spendable sum strictly below the requested amount, `transferUTXO`
fails with the insufficiency error, leaves the store untouched and issues
no mutation — under any mutation-failure oracle.  (In the program no
scanned entry is ever spendable — the unexported `inOrOut` never decodes
to `"out"`, see `coin_selection_never_selects` — so the spendable sum is
always zero and this covers every positive-amount request.) -/
theorem transferUTXO_insufficient_funds_noop (mf : Op → Bool) (st : Store)
    (txid a b s : String)
    (hlt : spendableSum st a < parseDecQ0 s) :
    transferUTXO mf st txid [a, b, s] =
      { response := .error "No enough amount to spend", store := st, ops := [],
        txRec := none, total := spendableSum st a } := by
  have hsel : (selectLoop a (parseDecQ0 s) st 0).2.2 = spendableSum st a := by
    rw [selectLoop_nothing, spendableSum_zero]
  have hcond : (selectLoop a (parseDecQ0 s) st 0).2.2 < parseDecQ0 s := by
    rw [hsel]; exact hlt
  rw [transferUTXO_insufficient mf st txid a b s hcond, hsel]

/-- Witness for C2 on the persisted genesis ledger, requesting more than
the genesis amount. -/
theorem transferUTXO_insufficient_funds_noop_witness :
    spendableSum [("g", Record.emptyObj), ("g:1", Record.utxo "g" "1" "50" "User A")]
        "User A" < parseDecQ0 "60" ∧
    transferUTXO noFail [("g", Record.emptyObj), ("g:1", Record.utxo "g" "1" "50" "User A")]
        "t" ["User A", "User B", "60"] =
      { response := .error "No enough amount to spend",
        store := [("g", Record.emptyObj), ("g:1", Record.utxo "g" "1" "50" "User A")],
        ops := [], txRec := none,
        total := spendableSum
          [("g", Record.emptyObj), ("g:1", Record.utxo "g" "1" "50" "User A")] "User A" } :=
  ⟨by rw [spendableSum_zero]; norm_num [parseDecQ0_60],
   transferUTXO_insufficient_funds_noop noFail
     [("g", Record.emptyObj), ("g:1", Record.utxo "g" "1" "50" "User A")]
     "t" "User A" "User B" "60"
     (by rw [spendableSum_zero]; norm_num [parseDecQ0_60])⟩

/-- C5 (status: code_bug).  The claim — and spec section 4.4 — describe a
first-fit greedy selection that appends every scanned entry passing the
ownership predicate and accumulates its amount until the total covers the
request.  In the program this selection is unreachable: `json.Marshal`
never persists the unexported `inOrOut` field and `json.Unmarshal` leaves
it `""`, so no scanned entry ever satisfies `checkUTXOOwnerShip`, the
selection loop always returns an empty selection with total `0`, and —
as evaluated on the persisted genesis ledger — every positive-amount
transfer fails with the insufficiency error. -/
theorem coin_selection_never_selects :
    (∀ (addr : String) (amt : ℚ) (st : Store) (acc : ℚ),
        selectLoop addr amt st acc = ([], [], acc)) ∧
    (transferUTXO noFail
        [("g", Record.emptyObj), ("g:1", Record.utxo "g" "1" "50" "User A")]
        "t" ["User A", "User B", "20"]).response =
      .error "No enough amount to spend" := by
  refine ⟨fun addr amt st acc => selectLoop_nothing addr amt st acc, ?_⟩
  norm_num [transferUTXO, selectLoop_nothing, parseDecQ0_20, noFail]

/-- C6 (status: code_bug).  After `initState` on the empty ledger the
store does hold exactly one UTXO-classified record with amount `"50"` and
address `"User A"` (under `gen:1`; its direction field is dropped by the
marshaller), but the transaction-classified record is the empty object:
every field of the Go `Transaction` struct is unexported, so
`json.Marshal` persists `{}` (the json tags on the unexported fields have
no effect), and the stored record has no coinbase input list (index
`strconv.Itoa(math.MaxUint32)`, the decimal digits of `2^32 - 1`) and no
output list, contrary to the claim. -/
theorem initState_stores_empty_transaction :
    initState noFail [] "gen" =
      .ok [("gen", Record.emptyObj), ("gen:1", Record.utxo "gen" "1" "50" "User A")] ∧
    utxoEntries [("gen", Record.emptyObj), ("gen:1", Record.utxo "gen" "1" "50" "User A")] =
      [("gen:1", Record.utxo "gen" "1" "50" "User A")] ∧
    txEntries [("gen", Record.emptyObj), ("gen:1", Record.utxo "gen" "1" "50" "User A")] =
      [("gen", Record.emptyObj)] ∧
    (∀ t : Transaction, marshalTransaction t = Record.emptyObj) ∧
    maxUint32Str = "4294967295" := by
  refine ⟨?_, by decide, by decide, fun t => rfl, by decide⟩
  rfl

/-- C7 (status: confirmed).  Every entry `queryUTXOByAddr` returns passes
the ownership test: its address equals the queried address and its stored
direction is `"out"`.  (In the program the returned list is in fact
always empty — no persisted record decodes with direction `"out"` — so
the never-includes property holds a fortiori; the statement is phrased
over the whole returned list.) -/
theorem queryUTXOByAddr_ownership (st : Store) (addr : String)
    (l : List (String × UTXO)) (h : queryUTXOByAddr st [addr] = .ok l) :
    l.all (fun e => e.2.address == addr && e.2.inOrOut == "out") = true := by
  simp only [queryUTXOByAddr, Except.ok.injEq] at h
  subst h
  rw [List.all_eq_true]
  intro e he
  simp only [List.mem_filterMap] at he
  obtain ⟨x, _, hx⟩ := he
  by_cases hk : keyIsUTXO x.1 = true
  · rw [if_pos hk] at hx
    by_cases ho : checkUTXOOwnerShip (decodeUTXOOr x.2) addr = true
    · rw [if_pos ho] at hx
      cases hx
      exact ho
    · rw [if_neg ho] at hx
      cases hx
  · rw [if_neg hk] at hx
    cases hx

/-- Witness for C7 on a concrete persisted ledger. -/
theorem queryUTXOByAddr_ownership_witness :
    (queryUTXOByAddr [("g:1", Record.utxo "g" "1" "50" "User A")] ["User A"]
        = .ok ([] : List (String × UTXO))) ∧
    (([] : List (String × UTXO)).all
        (fun e => e.2.address == "User A" && e.2.inOrOut == "out") = true) :=
  ⟨rfl, queryUTXOByAddr_ownership [("g:1", Record.utxo "g" "1" "50" "User A")]
    "User A" [] rfl⟩

lemma selectLoop_stop {addr : String} {amt acc : ℚ} (h : ¬ acc < amt) :
    ∀ l : Store, selectLoop addr amt l acc = ([], [], acc) := by
  intro l
  cases l with
  | nil => rfl
  | cons e rest =>
    obtain ⟨ek, ev⟩ := e
    simp only [selectLoop, if_neg h]

lemma selectLoop_dropMalformed (addr : String) (amt : ℚ) :
    ∀ (l : Store) (acc : ℚ),
      selectLoop addr amt l acc = selectLoop addr amt (dropMalformed l) acc := by
  intro l
  induction l with
  | nil => intro acc; rfl
  | cons e rest ih =>
    obtain ⟨ek, ev⟩ := e
    intro acc
    by_cases hm : ev = Record.malformed
    · subst hm
      have hdrop : dropMalformed ((ek, Record.malformed) :: rest) = dropMalformed rest := by
        simp [dropMalformed, List.filter_cons]
      rw [hdrop]
      by_cases hacc : acc < amt
      · simp only [selectLoop, if_pos hacc]
        rw [if_neg (by simp [decodeUTXOOr, checkUTXOOwnerShip_zero])]
        exact ih acc
      · rw [selectLoop_stop hacc, selectLoop_stop hacc]
    · have hdrop : dropMalformed ((ek, ev) :: rest) = (ek, ev) :: dropMalformed rest := by
        simp [dropMalformed, List.filter_cons, hm]
      rw [hdrop]
      by_cases hacc : acc < amt
      · by_cases ho : checkUTXOOwnerShip (decodeUTXOOr ev) addr = true
        · simp only [selectLoop, if_pos hacc, if_pos ho]
          rw [ih]
        · simp only [selectLoop, if_pos hacc]
          rw [if_neg ho, if_neg ho, ih]
      · simp only [selectLoop, if_neg hacc]

lemma queryUTXOByAddr_dropMalformed (addr : String) :
    ∀ st : Store, queryUTXOByAddr st [addr] = queryUTXOByAddr (dropMalformed st) [addr] := by
  intro st
  simp only [queryUTXOByAddr, Except.ok.injEq]
  induction st with
  | nil => rfl
  | cons e rest ih =>
    obtain ⟨ek, ev⟩ := e
    by_cases hm : ev = Record.malformed
    · subst hm
      have hdrop : dropMalformed ((ek, Record.malformed) :: rest) = dropMalformed rest := by
        simp [dropMalformed, List.filter_cons]
      rw [hdrop, ← ih]
      simp only [List.filterMap_cons]
      split
      · rfl
      · next heq =>
        by_cases hk : keyIsUTXO ek = true
        · rw [if_pos hk] at heq
          rw [if_neg (by simp [decodeUTXOOr, checkUTXOOwnerShip_zero])] at heq
          cases heq
        · rw [if_neg hk] at heq
          cases heq
    · have hdrop : dropMalformed ((ek, ev) :: rest) = (ek, ev) :: dropMalformed rest := by
        simp [dropMalformed, List.filter_cons, hm]
      rw [hdrop]
      simp only [List.filterMap_cons]
      rw [ih]

/-- C8 counterexample (status: corrected).  The claim says a UTXO-keyed
entry that fails to decode makes the scans fail with a structural decode
error; in fact `json.Unmarshal`'s error is ignored, and both scans
succeed: the query returns an ordinary (empty) result and the transfer
scan walks past the malformed entry and fails only with the ordinary
insufficiency error. -/
theorem scan_malformed_no_error :
    queryUTXOByAddr [("t:1", Record.malformed)] ["User A"] = .ok [] ∧
    (transferUTXO noFail [("t:1", Record.malformed)] "t2"
        ["User A", "User B", "1"]).response = .error "No enough amount to spend" := by
  refine ⟨rfl, ?_⟩
  norm_num [transferUTXO, selectLoop, parseDecQ0_1, decodeUTXOOr, checkUTXOOwnerShip_zero,
    noFail]

/-- C8 amended (status: corrected).  A scanned entry that fails to decode
as a UTXO is silently skipped rather than reported: it decodes to the zero
UTXO, which never passes the ownership predicate, so both scanning
operations behave exactly as they do on the store with the undecodable
records removed (and hence never fail with a structural decode error). -/
theorem scan_malformed_silently_skipped (st : Store) (addr : String) (amt acc : ℚ) :
    queryUTXOByAddr st [addr] = queryUTXOByAddr (dropMalformed st) [addr] ∧
    selectLoop addr amt st acc = selectLoop addr amt (dropMalformed st) acc :=
  ⟨queryUTXOByAddr_dropMalformed addr st, selectLoop_dropMalformed addr amt st acc⟩

/-- C10 (status: confirmed).  `transferUTXO` discards the error results of
every `DelState`/`PutState` it performs after selection succeeds: its
response (and the ops it attempts, the transaction it records, and its
selection total) are the same under an arbitrarily failing store as under
a store whose mutations all succeed. -/
theorem transferUTXO_ignores_mutation_errors (mf : Op → Bool) (st : Store)
    (txid : String) (args : List String) :
    (transferUTXO mf st txid args).response = (transferUTXO noFail st txid args).response ∧
    (transferUTXO mf st txid args).ops = (transferUTXO noFail st txid args).ops ∧
    (transferUTXO mf st txid args).txRec = (transferUTXO noFail st txid args).txRec ∧
    (transferUTXO mf st txid args).total = (transferUTXO noFail st txid args).total := by
  match args with
  | [] => exact ⟨rfl, rfl, rfl, rfl⟩
  | [_] => exact ⟨rfl, rfl, rfl, rfl⟩
  | [_, _] => exact ⟨rfl, rfl, rfl, rfl⟩
  | _ :: _ :: _ :: _ :: _ => exact ⟨rfl, rfl, rfl, rfl⟩
  | [a, b, s] =>
    by_cases h : (selectLoop a (parseDecQ0 s) st 0).2.2 < parseDecQ0 s
    · rw [transferUTXO_insufficient mf st txid a b s h,
        transferUTXO_insufficient noFail st txid a b s h]
      exact ⟨rfl, rfl, rfl, rfl⟩
    · rw [transferUTXO_ok mf st txid a b s h, transferUTXO_ok noFail st txid a b s h]
      exact ⟨rfl, rfl, rfl, rfl⟩

lemma utxoPutOps_dels (keys : List String) : utxoPutOps (keys.map Op.del) = [] := by
  induction keys with
  | nil => rfl
  | cons k rest ih => simp only [List.map_cons, utxoPutOps, List.filter_cons] at ih ⊢; exact ih

lemma utxoPutOps_shape (keys : List String) (u1 u2 : UTXO) (k1 k2 k3 : String)
    (t : Transaction) :
    utxoPutOps (keys.map Op.del ++
        [Op.put k1 (marshalUTXO u1), Op.put k2 (marshalUTXO u2),
         Op.put k3 (marshalTransaction t)])
      = [Op.put k1 (marshalUTXO u1), Op.put k2 (marshalUTXO u2)] := by
  have hd := utxoPutOps_dels keys
  simp only [utxoPutOps, List.filter_append] at hd ⊢
  rw [hd]
  simp [List.filter_cons, marshalUTXO, marshalTransaction]

/-- C9 (status: confirmed).  Every successful `transferUTXO` issues exactly
two UTXO `PutState` writes — the Go code calls `storeUTXO` for `utxo2`
unconditionally — and when the selected total equals the requested amount
the second write stores the (marshalled) zero-valued UTXO under the key
built from the transaction id, the separator and the zero UTXO's empty
index. -/
theorem transferUTXO_two_utxo_puts (mf : Op → Bool) (st : Store) (txid a b s : String)
    (hok : (transferUTXO mf st txid [a, b, s]).response = .ok ()) :
    (utxoPutOps (transferUTXO mf st txid [a, b, s]).ops).length = 2 ∧
    ((transferUTXO mf st txid [a, b, s]).total = parseDecQ0 s →
      utxoPutOps (transferUTXO mf st txid [a, b, s]).ops =
        [Op.put (utxoKey txid "1") (marshalUTXO (makeUTXO txid "1" s b "out")),
         Op.put (utxoKey txid "") (marshalUTXO zeroUTXO)]) := by
  have h : ¬ (selectLoop a (parseDecQ0 s) st 0).2.2 < parseDecQ0 s := by
    have := (transferUTXO_response_ok_iff mf st txid a b s).mp hok
    linarith
  rw [transferUTXO_ok mf st txid a b s h]
  simp only [utxoPutOps_shape]
  refine ⟨rfl, ?_⟩
  intro htot
  have hne : ¬ parseDecQ0 s < (selectLoop a (parseDecQ0 s) st 0).2.2 := by
    rw [htot]; exact lt_irrefl _
  rw [if_neg hne]
  rfl

/-- Witness for C9: an exact-total transfer — with the serialization bug
the selected total is always zero, so amount `"0"` realizes it. -/
theorem transferUTXO_two_utxo_puts_witness :
    ((transferUTXO noFail [] "t7" ["User A", "User B", "0"]).response = .ok ()) ∧
    ((transferUTXO noFail [] "t7" ["User A", "User B", "0"]).total = parseDecQ0 "0") ∧
    (utxoPutOps (transferUTXO noFail [] "t7" ["User A", "User B", "0"]).ops).length = 2 ∧
    utxoPutOps (transferUTXO noFail [] "t7" ["User A", "User B", "0"]).ops =
      [Op.put (utxoKey "t7" "1") (marshalUTXO (makeUTXO "t7" "1" "0" "User B" "out")),
       Op.put (utxoKey "t7" "") (marshalUTXO zeroUTXO)] := by
  have hok : (transferUTXO noFail [] "t7" ["User A", "User B", "0"]).response = .ok () := by
    norm_num [transferUTXO, selectLoop, parseDecQ0_0, noFail]
  have htot : (transferUTXO noFail [] "t7" ["User A", "User B", "0"]).total
      = parseDecQ0 "0" := by
    norm_num [transferUTXO, selectLoop, parseDecQ0_0, noFail]
  have hmain := transferUTXO_two_utxo_puts noFail [] "t7" "User A" "User B" "0" hok
  exact ⟨hok, htot, hmain.1, hmain.2 htot⟩

/-- C3 amended (status: corrected).  An exact-total successful transfer
(with the serialization bug that means requested amount `0`) records a
transaction with exactly one output, the recipient's — but the store
receives two new UTXO records, not one: the unconditional second
`storeUTXO` call writes the (marshalled) zero-valued UTXO under
`txid + ":" + ""`. -/
theorem exact_transfer_single_output (mf : Op → Bool) (st : Store) (txid a b s : String)
    (hok : (transferUTXO mf st txid [a, b, s]).response = .ok ())
    (hexact : (transferUTXO mf st txid [a, b, s]).total = parseDecQ0 s) :
    (∃ t, (transferUTXO mf st txid [a, b, s]).txRec = some t ∧
        t.outputs = [makeUTXO txid "1" s b "out"]) ∧
    utxoPutOps (transferUTXO mf st txid [a, b, s]).ops =
      [Op.put (utxoKey txid "1") (marshalUTXO (makeUTXO txid "1" s b "out")),
       Op.put (utxoKey txid "") (marshalUTXO zeroUTXO)] := by
  have h : ¬ (selectLoop a (parseDecQ0 s) st 0).2.2 < parseDecQ0 s := by
    have := (transferUTXO_response_ok_iff mf st txid a b s).mp hok
    linarith
  rw [transferUTXO_ok mf st txid a b s h] at hexact ⊢
  simp only [] at hexact
  have hne : ¬ parseDecQ0 s < (selectLoop a (parseDecQ0 s) st 0).2.2 := by
    rw [hexact]; exact lt_irrefl _
  simp only [utxoPutOps_shape]
  rw [if_neg hne, if_neg hne]
  exact ⟨⟨_, rfl, rfl⟩, rfl⟩

/-- Witness for the amended C3: exact-total transfer of `"0"` on the empty
ledger. -/
theorem exact_transfer_single_output_witness :
    ((transferUTXO noFail [] "t8" ["User A", "User B", "0"]).response = .ok ()) ∧
    ((transferUTXO noFail [] "t8" ["User A", "User B", "0"]).total = parseDecQ0 "0") ∧
    ((∃ t, (transferUTXO noFail [] "t8" ["User A", "User B", "0"]).txRec = some t ∧
        t.outputs = [makeUTXO "t8" "1" "0" "User B" "out"]) ∧
      utxoPutOps (transferUTXO noFail [] "t8" ["User A", "User B", "0"]).ops =
        [Op.put (utxoKey "t8" "1") (marshalUTXO (makeUTXO "t8" "1" "0" "User B" "out")),
         Op.put (utxoKey "t8" "") (marshalUTXO zeroUTXO)]) := by
  have hok : (transferUTXO noFail [] "t8" ["User A", "User B", "0"]).response = .ok () := by
    norm_num [transferUTXO, selectLoop, parseDecQ0_0, noFail]
  have htot : (transferUTXO noFail [] "t8" ["User A", "User B", "0"]).total
      = parseDecQ0 "0" := by
    norm_num [transferUTXO, selectLoop, parseDecQ0_0, noFail]
  exact ⟨hok, htot,
    exact_transfer_single_output noFail [] "t8" "User A" "User B" "0" hok htot⟩

/-- C3 counterexample (status: corrected).  At an exact-total transfer
(amount `"0"` on the empty ledger) the recorded transaction has one
output, but two new UTXO records are written, the second being the
zero-valued record under `t3:` — so "exactly one new UTXO record is
written" is false as stated. -/
theorem exact_transfer_writes_two_records :
    ((transferUTXO noFail [] "t3" ["User A", "User B", "0"]).response = .ok ()) ∧
    ((transferUTXO noFail [] "t3" ["User A", "User B", "0"]).txRec =
      some ⟨"t3", [], [⟨"t3", "1", "0", "User B", "out"⟩]⟩) ∧
    (utxoPutOps (transferUTXO noFail [] "t3" ["User A", "User B", "0"]).ops).length = 2 ∧
    (transferUTXO noFail [] "t3" ["User A", "User B", "0"]).store =
      [("t3", Record.emptyObj),
       ("t3:", Record.utxo "" "" "" ""),
       ("t3:1", Record.utxo "t3" "1" "0" "User B")] := by
  refine ⟨?_, ?_, ?_, ?_⟩ <;>
    norm_num [transferUTXO, selectLoop, parseDecQ0_0, makeUTXO, makeTransaction, utxoKey,
      zeroUTXO, noFail, applyOp, putState, delState, keyLt, charsLt, utxoPutOps,
      List.filter_cons, marshalUTXO, marshalTransaction]
  all_goals decide

end Chaincode
